import Mathlib

/-!
Verification of the data-windowing and train/test-splitting logic of
`examples/lstm_stateful.py`.

The script's pipeline is:
  1. generate a uniform random sequence of length `input_len + to_drop`
     (`gen_uniform_amp`, lines 97-108, 120-121);
  2. take its trailing moving average of window `tsteps`
     (`data_input.rolling(window=tsteps).mean()`, line 124);
  3. when `lahead > 1`, replace the input by a "rolling window view":
     `lahead` copies of the column, column `i` shifted down by `i`
     (lines 128-132);
  4. drop the first `to_drop = max(tsteps-1, lahead-1)` rows of both frames
     (lines 135-136);
  5. split into train/test with `split_data` (lines 173-198).

Missing values (pandas `NaN` produced by `rolling` and `shift`) are modelled
as `Option ℚ`: `none` is `NaN`, `some v` a defined entry.  Sequence samples
are `ℚ`.  The reshape steps at the end of `split_data` only change tensor
shape, not row count or order, and are not modelled.
-/

set_option maxHeartbeats 1600000

namespace LstmStateful

/-- Modelled from the spec: the script relies on numpy's seeded global random
generator (`np.random.seed(1986)`; `np.random.uniform`), which is not part of
this repository.  Per the spec it is a reproducible seeded source of uniform
samples; we model the raw generator as a linear-congruential step. -/
def lcgNext (s : ℕ) : ℕ := (1103515245 * s + 12345) % 2147483648

/-- The stream of raw generator words obtained by iterating `lcgNext`. -/
def lcgStream : ℕ → ℕ → List ℕ
| _, 0 => []
| s, n + 1 => lcgNext s :: lcgStream (lcgNext s) n

/-- Scale one raw generator word into the half-open interval `[lo, hi)`. -/
def uniformOfNat (lo hi : ℚ) (w : ℕ) : ℚ :=
  lo + (hi - lo) * ((w % 2147483648 : ℕ) : ℚ) / 2147483648

/-- Modelled from the spec: `np.random.uniform(low, high, xn)` draws `xn`
samples in `[low, high)`, deterministically from the seeded generator. -/
def npUniform (seed : ℕ) (lo hi : ℚ) (xn : ℕ) : List ℚ :=
  (lcgStream seed xn).map (uniformOfNat lo hi)

/-- Source `gen_uniform_amp(amp, xn)` (lines 97-108): uniform random data between
`-1 * amp` and `+1 * amp`, of length `xn`.  The seed is the state of the
global generator, made explicit here. -/
def gen_uniform_amp (seed : ℕ) (amp : ℚ) (xn : ℕ) : List ℚ :=
  npUniform seed (-1 * amp) (1 * amp) xn

/-- Source `to_drop = max(tsteps - 1, lahead - 1)` (line 120). -/
def to_drop (tsteps lahead : ℕ) : ℕ := max (tsteps - 1) (lahead - 1)

/-- Mean of the trailing window of length `tsteps` ending at index `i`:
the slice `x[i+1-tsteps .. i]`, summed and divided by the window length.
This is the defined value pandas `rolling(window=tsteps).mean()` puts at
row `i` (line 124). -/
def windowMean (tsteps : ℕ) (x : List ℚ) (i : ℕ) : ℚ :=
  (((x.take (i + 1)).drop (i + 1 - tsteps)).sum) / tsteps

/-- Source `data_input.rolling(window=tsteps, center=False).mean()` (line 124):
one row per input row; row `i` is `NaN` (`none`) while the window is not yet
full (`i + 1 < tsteps`), else the trailing-window mean. -/
def rollingMean (tsteps : ℕ) (x : List ℚ) : List (Option ℚ) :=
  (List.range x.length).map
    (fun i => if tsteps ≤ i + 1 then some (windowMean tsteps x i) else none)

/-- Entry of the shifted column `j` at row `i` (lines 129-132): column `j`
of the repeated frame is the original column shifted down by `j`, so row `i`
holds `x[i - j]` when `j ≤ i` and `NaN` above. -/
def shiftCol (x : List ℚ) (i j : ℕ) : Option ℚ :=
  if j ≤ i then some (x.getD (i - j) 0) else none

/-- The "rolling window view" (lines 128-132): `np.repeat` makes `lahead`
copies of the column and column `j` is then shifted down by `j`; row `i` is
`[x[i], x[i-1], ..., x[i-lahead+1]]` with `NaN` where the index underflows. -/
def windowedInput (lahead : ℕ) (x : List ℚ) : List (List (Option ℚ)) :=
  (List.range x.length).map (fun i => (List.range lahead).map (shiftCol x i))

/-- Source `data_input` after the `if lahead > 1` branch (lines 128-132): the rolling
window view when `lahead > 1`, else the original single-column frame. -/
def dataInputWindowed (lahead : ℕ) (x : List ℚ) : List (List (Option ℚ)) :=
  if 1 < lahead then windowedInput lahead x else x.map (fun v => [some v])

/-- The generated raw input (line 121): `gen_uniform_amp(amp=0.1,
xn=input_len + to_drop)`, with amplitude and seed kept as parameters. -/
def rawInput (seed : ℕ) (amp : ℚ) (input_len tsteps lahead : ℕ) : List ℚ :=
  gen_uniform_amp seed amp (input_len + to_drop tsteps lahead)

/-- Source `data_input` after windowing and after dropping the first `to_drop` rows
(lines 128-136), as a function of the raw sequence. -/
def windowSplitInput (tsteps lahead : ℕ) (x : List ℚ) : List (List (Option ℚ)) :=
  (dataInputWindowed lahead x).drop (to_drop tsteps lahead)

/-- Source `expected_output` after dropping the first `to_drop` rows (lines 124,
135), as a function of the raw sequence. -/
def windowSplitOutput (tsteps lahead : ℕ) (x : List ℚ) : List (Option ℚ) :=
  (rollingMean tsteps x).drop (to_drop tsteps lahead)

/-- Final `data_input` of the pipeline (line 136). -/
def data_input_final (seed : ℕ) (amp : ℚ) (input_len tsteps lahead : ℕ) :
    List (List (Option ℚ)) :=
  windowSplitInput tsteps lahead (rawInput seed amp input_len tsteps lahead)

/-- Final `expected_output` of the pipeline (line 135). -/
def expected_output_final (seed : ℕ) (amp : ℚ) (input_len tsteps lahead : ℕ) :
    List (Option ℚ) :=
  windowSplitOutput tsteps lahead (rawInput seed amp input_len tsteps lahead)

/-- The SequenceGenerator component of the spec: the generated sequence
together with its MovingAverage target (lines 121-124). -/
def SequenceGenerator (seed : ℕ) (amp : ℚ) (xn tsteps : ℕ) :
    List ℚ × List (Option ℚ) :=
  let s := gen_uniform_amp seed amp xn
  (s, rollingMean tsteps s)

/-- Source `int(input_len * ratio)` (line 174): for a nonnegative ratio, Python's
`int()` truncation coincides with the floor.  The script always calls with
the default ratio 0.8. -/
def floorTrain (input_len : ℕ) (r : ℚ) : ℕ :=
  (Int.floor ((input_len : ℚ) * r)).toNat

/-- Source `to_train` after the batch alignment (lines 174-176): `int(input_len *
ratio)` rounded down to a multiple of `batch_size`. -/
def to_train_of (input_len batch_size : ℕ) (r : ℚ) : ℕ :=
  floorTrain input_len r - floorTrain input_len r % batch_size

/-- Python `l[:-d]` for `d > 0` (lines 186-187): remove the last `d`
elements (everything, when `d ≥ len(l)`); identity for `d = 0`. -/
def tailTrunc (d : ℕ) (l : List α) : List α :=
  if 0 < d then l.take (l.length - d) else l

/-- Source `split_data(x, y, ratio)` (lines 173-198).  `input_len` and `batch_size`
are the script's globals, kept as parameters.  The trailing reshapes only
change tensor shape and are omitted. -/
def split_data (input_len batch_size : ℕ) (x : List α) (y : List β) (r : ℚ) :
    (List α × List β) × (List α × List β) :=
  let to_train := to_train_of input_len batch_size r
  let x_train := x.take to_train
  let y_train := y.take to_train
  let x_test := x.drop to_train
  let y_test := y.drop to_train
  let d := x.length % batch_size
  ((x_train, y_train), (tailTrunc d x_test, tailTrunc d y_test))

/-- The drop-before-windowing order asserted by the spec, for comparison with
the source order (windowing first, then dropping, lines 128-136): drop the
first `to_drop` raw entries, then build the rolling window view. -/
def specOrderInput (tsteps lahead : ℕ) (x : List ℚ) : List (List (Option ℚ)) :=
  dataInputWindowed lahead (x.drop (to_drop tsteps lahead))

/-! ### Helper lemmas -/

lemma lcgStream_length (s n : ℕ) : (lcgStream s n).length = n := by
  induction n generalizing s with
  | zero => rfl
  | succ n ih => simp [lcgStream, ih]

lemma gen_uniform_amp_length (seed : ℕ) (amp : ℚ) (xn : ℕ) :
    (gen_uniform_amp seed amp xn).length = xn := by
  simp [gen_uniform_amp, npUniform, lcgStream_length]

lemma rawInput_length (seed : ℕ) (amp : ℚ) (input_len tsteps lahead : ℕ) :
    (rawInput seed amp input_len tsteps lahead).length
      = input_len + to_drop tsteps lahead := by
  simp [rawInput, gen_uniform_amp_length]

lemma rollingMean_length (t : ℕ) (x : List ℚ) :
    (rollingMean t x).length = x.length := by
  simp [rollingMean]

lemma dataInputWindowed_length (la : ℕ) (x : List ℚ) :
    (dataInputWindowed la x).length = x.length := by
  unfold dataInputWindowed windowedInput
  split <;> simp

lemma windowSplitInput_length (t la : ℕ) (x : List ℚ) :
    (windowSplitInput t la x).length = x.length - to_drop t la := by
  simp [windowSplitInput, dataInputWindowed_length]

lemma windowSplitOutput_length (t la : ℕ) (x : List ℚ) :
    (windowSplitOutput t la x).length = x.length - to_drop t la := by
  simp [windowSplitOutput, rollingMean_length]

lemma data_input_final_length (seed : ℕ) (amp : ℚ) (input_len tsteps lahead : ℕ) :
    (data_input_final seed amp input_len tsteps lahead).length = input_len := by
  rw [data_input_final, windowSplitInput_length, rawInput_length]
  omega

lemma expected_output_final_length (seed : ℕ) (amp : ℚ)
    (input_len tsteps lahead : ℕ) :
    (expected_output_final seed amp input_len tsteps lahead).length = input_len := by
  rw [expected_output_final, windowSplitOutput_length, rawInput_length]
  omega

lemma rollingMean_getElem (t : ℕ) (x : List ℚ) (i : ℕ)
    (hi : i < (rollingMean t x).length) :
    (rollingMean t x)[i]
      = if t ≤ i + 1 then some (windowMean t x i) else none := by
  simp [rollingMean]

lemma windowedInput_getElem (la : ℕ) (x : List ℚ) (i : ℕ)
    (hi : i < (windowedInput la x).length) :
    (windowedInput la x)[i] = (List.range la).map (shiftCol x i) := by
  simp [windowedInput]

lemma countP_range_cond (t n : ℕ) :
    (List.range n).countP (fun i => decide (t ≤ i + 1)) = n - (t - 1) := by
  induction n with
  | zero => simp
  | succ n ih =>
    rw [List.range_succ, List.countP_append, ih]
    by_cases h : t ≤ n + 1
    all_goals simp [List.countP_cons, List.countP_nil, h]
    all_goals omega

lemma rollingMean_countP (t : ℕ) (x : List ℚ) :
    (rollingMean t x).countP Option.isSome = x.length - (t - 1) := by
  unfold rollingMean
  rw [List.countP_map]
  have hfun : (Option.isSome ∘ fun i =>
      if t ≤ i + 1 then some (windowMean t x i) else none)
      = fun i => decide (t ≤ i + 1) := by
    funext i
    by_cases h : t ≤ i + 1 <;> simp [h]
  rw [hfun, countP_range_cond]

lemma sum_eq_sum_getD (l : List ℚ) :
    l.sum = ∑ j ∈ Finset.range l.length, l.getD j 0 := by
  induction l with
  | nil => simp
  | cons a tl ih =>
    rw [List.sum_cons, List.length_cons, Finset.sum_range_succ']
    simp only [List.getD_cons_succ, List.getD_cons_zero]
    rw [← ih]
    ring

lemma windowMean_eq (t : ℕ) (x : List ℚ) (i : ℕ) (ht : t ≤ i + 1)
    (hi : i < x.length) :
    windowMean t x i = (∑ j ∈ Finset.range t, x.getD (i - j) 0) / t := by
  unfold windowMean
  congr 1
  have hlen : ((x.take (i + 1)).drop (i + 1 - t)).length = t := by
    simp [List.length_drop, List.length_take]
    omega
  rw [sum_eq_sum_getD, hlen,
    ← Finset.sum_range_reflect (fun j => x.getD (i - j) 0) t]
  apply Finset.sum_congr rfl
  intro j hj
  rw [Finset.mem_range] at hj
  have hidx : i - (t - 1 - j) = (i + 1 - t) + j := by omega
  have h3 : j < ((x.take (i + 1)).drop (i + 1 - t)).length := by omega
  have h1 : (i + 1 - t) + j < x.length := by omega
  rw [List.getD_eq_getElem _ 0 h3, hidx, List.getD_eq_getElem x 0 h1]
  simp [List.getElem_drop, List.getElem_take]

lemma to_train_dvd (m B : ℕ) (r : ℚ) : B ∣ to_train_of m B r :=
  Nat.dvd_sub_mod (floorTrain m r)

lemma floorTrain_le (m : ℕ) (r : ℚ) (hr1 : r ≤ 1) : floorTrain m r ≤ m := by
  unfold floorTrain
  have h1 : ((m : ℚ) * r) ≤ (m : ℚ) := by
    nlinarith [Nat.cast_nonneg (α := ℚ) m]
  have h2 : ((m : ℚ) * r).floor ≤ (m : ℤ) := by
    have := Int.floor_mono h1
    simpa using this
  exact Int.toNat_le.mpr h2

lemma tailTrunc_length (d : ℕ) (l : List α) :
    (tailTrunc d l).length = l.length - d := by
  unfold tailTrunc
  split
  · simp [List.length_take]
  · omega

lemma to_train_le (m B : ℕ) (r : ℚ) (hr1 : r ≤ 1) : to_train_of m B r ≤ m :=
  le_trans (Nat.sub_le _ _) (floorTrain_le m r hr1)

/-- The final test length: the test remainder minus the tail alignment. -/
lemma split_data_test_length (input_len B : ℕ) (x : List α) (y : List β)
    (r : ℚ) :
    (split_data input_len B x y r).2.1.length
      = (x.length - to_train_of input_len B r) - x.length % B := by
  simp [split_data, tailTrunc_length, List.length_drop]

lemma split_data_test_length' (input_len B : ℕ) (x : List α) (y : List β)
    (r : ℚ) :
    (split_data input_len B x y r).2.2.length
      = (y.length - to_train_of input_len B r) - x.length % B := by
  simp [split_data, tailTrunc_length, List.length_drop]

lemma split_data_train_length (input_len B : ℕ) (x : List α) (y : List β)
    (r : ℚ) :
    (split_data input_len B x y r).1.1.length
      = min (to_train_of input_len B r) x.length := by
  simp [split_data, List.length_take]

lemma split_data_train_length' (input_len B : ℕ) (x : List α) (y : List β)
    (r : ℚ) :
    (split_data input_len B x y r).1.2.length
      = min (to_train_of input_len B r) y.length := by
  simp [split_data, List.length_take]

/-- Aligned-tail arithmetic: removing the batch-aligned head `k` and the tail
remainder `m % B` from a length `m ≥ k` leaves a multiple of `B`. -/
lemma aligned_sub_mod (m B k : ℕ) (hB : 0 < B) (hdvd : B ∣ k) (hkm : k ≤ m) :
    ((m - k) - m % B) % B = 0 := by
  obtain ⟨q, hq⟩ := hdvd
  have hdm := Nat.mod_add_div m B
  have hqle : q ≤ m / B := by
    rw [Nat.le_div_iff_mul_le hB]
    calc q * B = B * q := Nat.mul_comm q B
    _ = k := hq.symm
    _ ≤ m := hkm
  have hkX : k ≤ B * (m / B) := by
    rw [hq]
    exact Nat.mul_le_mul_left B hqle
  have hsplit : (m / B - q) + q = m / B := Nat.sub_add_cancel hqle
  have hsum : B * (m / B - q) + B * q = B * (m / B) := by
    rw [← Nat.mul_add, hsplit]
  have hval : (m - k) - m % B = B * (m / B - q) := by
    rw [hq] at hkX ⊢
    omega
  rw [hval]
  exact Nat.mul_mod_right B _

/-- C1 (amended): for every aligned input pair with `len(x) = len(y) =
input_len` (as in the program), every `batch_size ≥ 1`, and every ratio with
`0 ≤ ratio ≤ 1`, the four arrays returned by `split_data` satisfy
`len(train_inputs) = len(train_targets)`, `len(test_inputs) =
len(test_targets)`, and both the train count and the test count are exact
multiples of `batch_size`. -/
theorem C1_split_invariants (input_len B : ℕ) (r : ℚ) (x : List α) (y : List β)
    (hx : x.length = input_len) (hy : y.length = input_len)
    (hB : 0 < B) (hr0 : 0 ≤ r) (hr1 : r ≤ 1) :
    (split_data input_len B x y r).1.1.length
        = (split_data input_len B x y r).1.2.length ∧
    (split_data input_len B x y r).2.1.length
        = (split_data input_len B x y r).2.2.length ∧
    (split_data input_len B x y r).1.1.length % B = 0 ∧
    (split_data input_len B x y r).2.1.length % B = 0 := by
  have hkm : to_train_of input_len B r ≤ input_len := to_train_le input_len B r hr1
  have hdvd : B ∣ to_train_of input_len B r := to_train_dvd input_len B r
  refine ⟨?_, ?_, ?_, ?_⟩
  · rw [split_data_train_length, split_data_train_length', hx, hy]
  · rw [split_data_test_length, split_data_test_length', hx, hy]
  · rw [split_data_train_length, hx, Nat.min_eq_left hkm]
    obtain ⟨q, hq⟩ := hdvd
    rw [hq]
    exact Nat.mul_mod_right B q
  · rw [split_data_test_length, hx]
    exact aligned_sub_mod input_len B _ hB hdvd hkm

/-- Closed instance discharging the hypotheses of the amended C1 theorem. -/
theorem C1_witness :
    ([(1 : ℚ), 2, 3, 4].length = 4 ∧ [(5 : ℚ), 6, 7, 8].length = 4 ∧
      0 < 2 ∧ 0 ≤ (1 / 2 : ℚ) ∧ (1 / 2 : ℚ) ≤ 1) ∧
    ((split_data 4 2 [(1 : ℚ), 2, 3, 4] [(5 : ℚ), 6, 7, 8] (1 / 2)).1.1.length
        = (split_data 4 2 [(1 : ℚ), 2, 3, 4] [(5 : ℚ), 6, 7, 8] (1 / 2)).1.2.length ∧
      (split_data 4 2 [(1 : ℚ), 2, 3, 4] [(5 : ℚ), 6, 7, 8] (1 / 2)).2.1.length
        = (split_data 4 2 [(1 : ℚ), 2, 3, 4] [(5 : ℚ), 6, 7, 8] (1 / 2)).2.2.length ∧
      (split_data 4 2 [(1 : ℚ), 2, 3, 4] [(5 : ℚ), 6, 7, 8] (1 / 2)).1.1.length % 2 = 0 ∧
      (split_data 4 2 [(1 : ℚ), 2, 3, 4] [(5 : ℚ), 6, 7, 8] (1 / 2)).2.1.length % 2 = 0) :=
  ⟨⟨by decide, by decide, by decide, by norm_num, by norm_num⟩,
    C1_split_invariants 4 2 (1 / 2) [(1 : ℚ), 2, 3, 4] [(5 : ℚ), 6, 7, 8]
      (by decide) (by decide) (by decide) (by norm_num) (by norm_num)⟩

/-- C1 as literally stated fails for a ratio above 1: with `input_len = 2`,
`batch_size = 3`, `ratio = 2` and a pair of length 2, the train portion has
2 elements, which is not a multiple of 3. -/
theorem C1_counterexample :
    ¬ ((split_data 2 3 [(0 : ℚ), 0] [(0 : ℚ), 0] 2).1.1.length % 3 = 0) := by
  have h4 : floorTrain 2 (2 : ℚ) = 4 := by
    have hc : ((2 : ℕ) : ℚ) * 2 = ((4 : ℤ) : ℚ) := by norm_num
    unfold floorTrain
    rw [hc, Int.floor_intCast]
    rfl
  have h3 : to_train_of 2 3 (2 : ℚ) = 3 := by
    unfold to_train_of
    rw [h4]
  rw [split_data_train_length, h3]
  decide

/-- C2: `split_data` computes the split index as `floor(n * ratio)` rounded
down to the nearest multiple of `batch_size` — `n` the length of the sequence
being split, which at the only call site equals the global `input_len` the
code reads — takes exactly that many leading elements as the train portion,
and takes the remainder as the test portion before tail truncation. -/
theorem C2_split_index (B : ℕ) (x : List α) (y : List β) (r : ℚ)
    (hB : 0 < B) (hr : 0 ≤ r) :
    ((floorTrain x.length r : ℕ) : ℤ) = Int.floor ((x.length : ℚ) * r) ∧
    to_train_of x.length B r % B = 0 ∧
    to_train_of x.length B r ≤ floorTrain x.length r ∧
    floorTrain x.length r < to_train_of x.length B r + B ∧
    (split_data x.length B x y r).1.1 = x.take (to_train_of x.length B r) ∧
    (split_data x.length B x y r).1.2 = y.take (to_train_of x.length B r) ∧
    (split_data x.length B x y r).2.1
      = tailTrunc (x.length % B) (x.drop (to_train_of x.length B r)) ∧
    (split_data x.length B x y r).2.2
      = tailTrunc (x.length % B) (y.drop (to_train_of x.length B r)) := by
  refine ⟨?_, ?_, Nat.sub_le _ _, ?_, rfl, rfl, rfl, rfl⟩
  · unfold floorTrain
    have h0 : (0 : ℤ) ≤ Int.floor ((x.length : ℚ) * r) :=
      Int.floor_nonneg.mpr (mul_nonneg (Nat.cast_nonneg _) hr)
    exact Int.toNat_of_nonneg h0
  · obtain ⟨q, hq⟩ := to_train_dvd x.length B r
    rw [hq]
    exact Nat.mul_mod_right B q
  · have h1 : floorTrain x.length r % B < B := Nat.mod_lt _ hB
    have h2 : floorTrain x.length r % B ≤ floorTrain x.length r := Nat.mod_le _ _
    unfold to_train_of
    omega

/-- Closed instance discharging the hypotheses of the C2 theorem. -/
theorem C2_witness :
    (0 < 2 ∧ 0 ≤ (1 / 2 : ℚ)) ∧
    (((floorTrain [(1 : ℚ), 2, 3].length (1 / 2) : ℕ) : ℤ)
        = Int.floor (([(1 : ℚ), 2, 3].length : ℚ) * (1 / 2)) ∧
      to_train_of [(1 : ℚ), 2, 3].length 2 (1 / 2) % 2 = 0 ∧
      to_train_of [(1 : ℚ), 2, 3].length 2 (1 / 2)
        ≤ floorTrain [(1 : ℚ), 2, 3].length (1 / 2) ∧
      floorTrain [(1 : ℚ), 2, 3].length (1 / 2)
        < to_train_of [(1 : ℚ), 2, 3].length 2 (1 / 2) + 2 ∧
      (split_data [(1 : ℚ), 2, 3].length 2 [(1 : ℚ), 2, 3] [(4 : ℚ), 5, 6] (1 / 2)).1.1
        = [(1 : ℚ), 2, 3].take (to_train_of [(1 : ℚ), 2, 3].length 2 (1 / 2)) ∧
      (split_data [(1 : ℚ), 2, 3].length 2 [(1 : ℚ), 2, 3] [(4 : ℚ), 5, 6] (1 / 2)).1.2
        = [(4 : ℚ), 5, 6].take (to_train_of [(1 : ℚ), 2, 3].length 2 (1 / 2)) ∧
      (split_data [(1 : ℚ), 2, 3].length 2 [(1 : ℚ), 2, 3] [(4 : ℚ), 5, 6] (1 / 2)).2.1
        = tailTrunc ([(1 : ℚ), 2, 3].length % 2)
            ([(1 : ℚ), 2, 3].drop (to_train_of [(1 : ℚ), 2, 3].length 2 (1 / 2))) ∧
      (split_data [(1 : ℚ), 2, 3].length 2 [(1 : ℚ), 2, 3] [(4 : ℚ), 5, 6] (1 / 2)).2.2
        = tailTrunc ([(1 : ℚ), 2, 3].length % 2)
            ([(4 : ℚ), 5, 6].drop (to_train_of [(1 : ℚ), 2, 3].length 2 (1 / 2)))) :=
  ⟨⟨by decide, by norm_num⟩,
    C2_split_index 2 [(1 : ℚ), 2, 3] [(4 : ℚ), 5, 6] (1 / 2) (by decide) (by norm_num)⟩

/-- C7: `split_data` is total, and a `batch_size` not dividing the data
length is handled by truncating only the test tail, dropping exactly
`len(x) % batch_size ≤ batch_size - 1` trailing samples. -/
theorem C7_tail_truncation (input_len B : ℕ) (x : List α) (y : List β) (r : ℚ)
    (hB : 0 < B) :
    x.length % B ≤ B - 1 ∧
    (split_data input_len B x y r).1.1 = x.take (to_train_of input_len B r) ∧
    (split_data input_len B x y r).2.1
      = tailTrunc (x.length % B) (x.drop (to_train_of input_len B r)) ∧
    (x.drop (to_train_of input_len B r)).length
        - (split_data input_len B x y r).2.1.length ≤ B - 1 ∧
    (y.drop (to_train_of input_len B r)).length
        - (split_data input_len B x y r).2.2.length ≤ B - 1 := by
  have hm : x.length % B < B := Nat.mod_lt _ hB
  refine ⟨by omega, rfl, rfl, ?_, ?_⟩
  · rw [split_data_test_length, List.length_drop]
    omega
  · rw [split_data_test_length', List.length_drop]
    omega

/-- Closed instance discharging the hypothesis of the C7 theorem. -/
theorem C7_witness :
    0 < 2 ∧
    ([(1 : ℚ), 2, 3].length % 2 ≤ 2 - 1 ∧
      (split_data 3 2 [(1 : ℚ), 2, 3] [(4 : ℚ), 5, 6] (1 / 2)).1.1
        = [(1 : ℚ), 2, 3].take (to_train_of 3 2 (1 / 2)) ∧
      (split_data 3 2 [(1 : ℚ), 2, 3] [(4 : ℚ), 5, 6] (1 / 2)).2.1
        = tailTrunc ([(1 : ℚ), 2, 3].length % 2)
            ([(1 : ℚ), 2, 3].drop (to_train_of 3 2 (1 / 2))) ∧
      ([(1 : ℚ), 2, 3].drop (to_train_of 3 2 (1 / 2))).length
          - (split_data 3 2 [(1 : ℚ), 2, 3] [(4 : ℚ), 5, 6] (1 / 2)).2.1.length
        ≤ 2 - 1 ∧
      ([(4 : ℚ), 5, 6].drop (to_train_of 3 2 (1 / 2))).length
          - (split_data 3 2 [(1 : ℚ), 2, 3] [(4 : ℚ), 5, 6] (1 / 2)).2.2.length
        ≤ 2 - 1) :=
  ⟨by decide, C7_tail_truncation 3 2 [(1 : ℚ), 2, 3] [(4 : ℚ), 5, 6] (1 / 2) (by decide)⟩

lemma windowSplitOutput_isSome (t la : ℕ) (x : List ℚ) :
    ∀ o ∈ windowSplitOutput t la x, o.isSome = true := by
  intro o ho
  rw [windowSplitOutput, List.mem_iff_getElem] at ho
  obtain ⟨k, hk, hko⟩ := ho
  rw [List.getElem_drop] at hko
  have hlt : to_drop t la + k < (rollingMean t x).length := by
    rw [List.length_drop] at hk
    omega
  have hmax : t - 1 ≤ to_drop t la := le_max_left (t - 1) (la - 1)
  rw [rollingMean_getElem t x _ hlt, if_pos (by omega)] at hko
  rw [← hko]
  rfl

lemma windowSplitInput_isSome (t la : ℕ) (x : List ℚ) :
    ∀ row ∈ windowSplitInput t la x, ∀ o ∈ row, o.isSome = true := by
  intro row hrow o ho
  rw [windowSplitInput, dataInputWindowed] at hrow
  by_cases h : 1 < la
  · rw [if_pos h, List.mem_iff_getElem] at hrow
    obtain ⟨k, hk, hko⟩ := hrow
    rw [List.getElem_drop] at hko
    have hlt : to_drop t la + k < (windowedInput la x).length := by
      rw [List.length_drop] at hk
      omega
    rw [windowedInput_getElem la x _ hlt] at hko
    rw [← hko, List.mem_map] at ho
    obtain ⟨j, hj, hjo⟩ := ho
    rw [List.mem_range] at hj
    have hmax : la - 1 ≤ to_drop t la := le_max_right (t - 1) (la - 1)
    have hcond : j ≤ to_drop t la + k := by omega
    rw [← hjo]
    simp only [shiftCol, if_pos hcond, Option.isSome_some]
  · rw [if_neg h] at hrow
    have hmem : row ∈ x.map (fun v => [some v]) := List.mem_of_mem_drop hrow
    rw [List.mem_map] at hmem
    obtain ⟨v, hv, hveq⟩ := hmem
    rw [← hveq] at ho
    rw [List.mem_singleton] at ho
    rw [ho]
    rfl

/-- C3 (amended): the pipeline drops exactly the first `max(tsteps-1,
lahead-1)` rows from both the (already windowed) input and the
MovingAverage — the drop happens after the windowing step, not before it —
and no retained row of either returned array contains an undefined value. -/
theorem C3_drop_and_defined (seed : ℕ) (amp : ℚ) (input_len tsteps lahead : ℕ) :
    expected_output_final seed amp input_len tsteps lahead
        = (rollingMean tsteps (rawInput seed amp input_len tsteps lahead)).drop
            (max (tsteps - 1) (lahead - 1)) ∧
    data_input_final seed amp input_len tsteps lahead
        = (dataInputWindowed lahead (rawInput seed amp input_len tsteps lahead)).drop
            (max (tsteps - 1) (lahead - 1)) ∧
    (expected_output_final seed amp input_len tsteps lahead).length
        = (rollingMean tsteps (rawInput seed amp input_len tsteps lahead)).length
            - max (tsteps - 1) (lahead - 1) ∧
    (data_input_final seed amp input_len tsteps lahead).length
        = (dataInputWindowed lahead (rawInput seed amp input_len tsteps lahead)).length
            - max (tsteps - 1) (lahead - 1) ∧
    (∀ o ∈ expected_output_final seed amp input_len tsteps lahead,
      o.isSome = true) ∧
    (∀ row ∈ data_input_final seed amp input_len tsteps lahead,
      ∀ o ∈ row, o.isSome = true) :=
  ⟨rfl, rfl, by rw [expected_output_final, windowSplitOutput, List.length_drop]; rfl,
    by rw [data_input_final, windowSplitInput, List.length_drop]; rfl,
    windowSplitOutput_isSome tsteps lahead _,
    windowSplitInput_isSome tsteps lahead _⟩

/-- C3 as stated — dropping the undefined region from the raw sequence
before any windowing — does not match the code: on `x = [1, 2, 3]` with
`tsteps = lahead = 2`, windowing first (the code, lines 128-136) and
dropping first (the spec order) give different arrays, and the spec order
reintroduces an undefined placeholder in its first retained row. -/
theorem C3_counterexample :
    windowSplitInput 2 2 [(1 : ℚ), 2, 3] ≠ specOrderInput 2 2 [(1 : ℚ), 2, 3] ∧
    none ∈ (specOrderInput 2 2 [(1 : ℚ), 2, 3]).getD 0 [] := by
  decide

/-- C4: for `1 ≤ tsteps ≤ n`, the MovingAverage of an `n`-sample Sequence
has exactly `n - tsteps + 1` defined values; the value at each defined index
`i` is the mean of the trailing `tsteps` samples ending at `i`; and the
first `tsteps - 1` positions are undefined. -/
theorem C4_moving_average (t : ℕ) (x : List ℚ) (ht1 : 1 ≤ t)
    (htn : t ≤ x.length) :
    (rollingMean t x).length = x.length ∧
    (rollingMean t x).countP Option.isSome = x.length - t + 1 ∧
    (∀ i, i < x.length → t ≤ i + 1 →
      (rollingMean t x).getD i none
        = some ((∑ j ∈ Finset.range t, x.getD (i - j) 0) / t)) ∧
    (∀ i, i + 1 < t → (rollingMean t x).getD i none = none) := by
  refine ⟨rollingMean_length t x, ?_, ?_, ?_⟩
  · rw [rollingMean_countP]
    omega
  · intro i hi hti
    have hlt : i < (rollingMean t x).length := by
      rw [rollingMean_length]
      exact hi
    rw [List.getD_eq_getElem _ none hlt, rollingMean_getElem t x i hlt,
      if_pos hti, windowMean_eq t x i hti hi]
  · intro i hit
    by_cases hlt : i < (rollingMean t x).length
    · rw [List.getD_eq_getElem _ none hlt, rollingMean_getElem t x i hlt,
        if_neg (by omega)]
    · exact List.getD_eq_default _ _ (by omega)

/-- Closed instance discharging the hypotheses of the C4 theorem. -/
theorem C4_witness :
    (1 ≤ 2 ∧ 2 ≤ [(1 : ℚ), 2, 3].length) ∧
    ((rollingMean 2 [(1 : ℚ), 2, 3]).length = [(1 : ℚ), 2, 3].length ∧
      (rollingMean 2 [(1 : ℚ), 2, 3]).countP Option.isSome
        = [(1 : ℚ), 2, 3].length - 2 + 1 ∧
      (∀ i, i < [(1 : ℚ), 2, 3].length → 2 ≤ i + 1 →
        (rollingMean 2 [(1 : ℚ), 2, 3]).getD i none
          = some ((∑ j ∈ Finset.range 2, [(1 : ℚ), 2, 3].getD (i - j) 0) / 2)) ∧
      (∀ i, i + 1 < 2 → (rollingMean 2 [(1 : ℚ), 2, 3]).getD i none = none)) :=
  ⟨⟨by decide, by decide⟩,
    C4_moving_average 2 [(1 : ℚ), 2, 3] (by decide) (by decide)⟩

/-- C5 (amended): with `lahead = 2`, `tsteps = 2`, each retained row `k` of
the windowed input is `[x[k+1], x[k]]`: the window ending at retained index
`i = k + 1` in reverse order — `[x[i], x[i-1]]`, not `[x[i-1], x[i]]` — and
every retained row, the first included, holds true samples of the Sequence,
not filled placeholders. -/
theorem C5_window_rows (x : List ℚ) (k : ℕ)
    (hk : k < (windowSplitInput 2 2 x).length) :
    (windowSplitInput 2 2 x).getD k []
      = [some (x.getD (k + 1) 0), some (x.getD k 0)] := by
  have hun : windowSplitInput 2 2 x = (windowedInput 2 x).drop 1 := by
    simp [windowSplitInput, dataInputWindowed, to_drop]
  rw [hun] at hk ⊢
  have hwl : (windowedInput 2 x).length = x.length := by
    simp [windowedInput]
  rw [List.getD_eq_getElem _ _ hk, List.getElem_drop]
  have h1k : 1 + k < (windowedInput 2 x).length := by
    rw [List.length_drop] at hk
    omega
  rw [windowedInput_getElem 2 x (1 + k) h1k]
  have hrange : List.range 2 = [0, 1] := rfl
  have e1 : 1 + k = k + 1 := by omega
  have e2 : 1 + k - 1 = k := by omega
  rw [hrange]
  simp only [List.map_cons, List.map_nil, shiftCol, Nat.zero_le, if_pos,
    Nat.sub_zero, e2, e1]
  rw [if_pos (by omega), Nat.add_sub_cancel]

/-- Closed instance discharging the hypothesis of the amended C5 theorem at
the first retained row: it holds the true previous sample `x[0] = 5`. -/
theorem C5_witness :
    0 < (windowSplitInput 2 2 [(5 : ℚ), 7, 9]).length ∧
    (windowSplitInput 2 2 [(5 : ℚ), 7, 9]).getD 0 []
      = [some ([(5 : ℚ), 7, 9].getD (0 + 1) 0), some ([(5 : ℚ), 7, 9].getD 0 0)] :=
  ⟨by decide, C5_window_rows [(5 : ℚ), 7, 9] 0 (by decide)⟩

/-- C5 as stated — rows being `[x[i-1], x[i]]` — is false on the code: for
`x = [1, 2, 3]`, the first retained row (index `i = 1`) is `[x[1], x[0]] =
[2, 1]`, not `[x[0], x[1]] = [1, 2]`. -/
theorem C5_counterexample :
    (windowSplitInput 2 2 [(1 : ℚ), 2, 3]).getD 0 []
      ≠ [some (1 : ℚ), some (2 : ℚ)] := by
  decide

lemma to_train_of_ten : to_train_of 10 1 (4 / 5) = 8 := by
  have hc : ((10 : ℕ) : ℚ) * (4 / 5) = ((8 : ℤ) : ℚ) := by norm_num
  unfold to_train_of floorTrain
  rw [hc, Int.floor_intCast]
  rfl

/-- C6 (amended): with `input_len = 10`, `tsteps = 2`, `lahead = 1`,
`batch_size = 1`, the pipeline gives `to_drop = 1`; the generator is called
with length `input_len + to_drop = 11`, so the generated MovingAverage has
10 defined values; and splitting at ratio 0.8 yields 8 train and 2 test
samples. -/
theorem C6_scenario (seed : ℕ) (amp : ℚ) :
    to_drop 2 1 = 1 ∧
    (rawInput seed amp 10 2 1).length = 11 ∧
    (rollingMean 2 (rawInput seed amp 10 2 1)).countP Option.isSome = 10 ∧
    (split_data 10 1 (data_input_final seed amp 10 2 1)
        (expected_output_final seed amp 10 2 1) (4 / 5)).1.1.length = 8 ∧
    (split_data 10 1 (data_input_final seed amp 10 2 1)
        (expected_output_final seed amp 10 2 1) (4 / 5)).2.1.length = 2 := by
  have hraw : (rawInput seed amp 10 2 1).length = 11 := by
    rw [rawInput_length]
    rfl
  have hdi : (data_input_final seed amp 10 2 1).length = 10 :=
    data_input_final_length seed amp 10 2 1
  refine ⟨rfl, hraw, ?_, ?_, ?_⟩
  · rw [rollingMean_countP, hraw]
  · rw [split_data_train_length, to_train_of_ten, hdi]
    norm_num
  · rw [split_data_test_length, to_train_of_ten, hdi]

/-- C6 as stated — 9 defined MovingAverage values and a 7/2 train/test
split — is false on the code at the script's own seed and amplitude: the
MovingAverage has 10 defined values and the split yields 8 train samples. -/
theorem C6_counterexample :
    ¬ ((rollingMean 2 (rawInput 1986 (1 / 10) 10 2 1)).countP Option.isSome = 9 ∧
      (split_data 10 1 (data_input_final 1986 (1 / 10) 10 2 1)
          (expected_output_final 1986 (1 / 10) 10 2 1) (4 / 5)).1.1.length = 7 ∧
      (split_data 10 1 (data_input_final 1986 (1 / 10) 10 2 1)
          (expected_output_final 1986 (1 / 10) 10 2 1) (4 / 5)).2.1.length = 2) := by
  intro h
  obtain ⟨h1, h2, h3⟩ := h
  rw [rollingMean_countP, rawInput_length] at h1
  norm_num [to_drop] at h1

lemma uniformOfNat_bounds (lo hi : ℚ) (hle : lo ≤ hi) (w : ℕ) :
    lo ≤ uniformOfNat lo hi w ∧ uniformOfNat lo hi w ≤ hi := by
  unfold uniformOfNat
  have hM : (0 : ℚ) < 2147483648 := by norm_num
  have hc0 : (0 : ℚ) ≤ ((w % 2147483648 : ℕ) : ℚ) := Nat.cast_nonneg _
  have hc1 : ((w % 2147483648 : ℕ) : ℚ) ≤ 2147483648 := by
    have hw : w % 2147483648 < 2147483648 := Nat.mod_lt _ (by norm_num)
    exact_mod_cast hw.le
  have h1 : 0 ≤ (hi - lo) * ((w % 2147483648 : ℕ) : ℚ) :=
    mul_nonneg (by linarith) hc0
  have h2 : 0 ≤ (hi - lo) * ((w % 2147483648 : ℕ) : ℚ) / 2147483648 :=
    div_nonneg h1 hM.le
  have h3 : (hi - lo) * ((w % 2147483648 : ℕ) : ℚ) ≤ (hi - lo) * 2147483648 :=
    mul_le_mul_of_nonneg_left hc1 (by linarith)
  have h4 : (hi - lo) * ((w % 2147483648 : ℕ) : ℚ) / 2147483648 ≤ hi - lo := by
    rw [div_le_iff₀ hM]
    calc (hi - lo) * ((w % 2147483648 : ℕ) : ℚ) ≤ (hi - lo) * 2147483648 := h3
    _ = (hi - lo) * 2147483648 := rfl
  constructor
  · linarith
  · linarith

/-- C8: for every amplitude `amp > 0` and length `xn`, `gen_uniform_amp`
returns exactly `xn` samples, each lying in `[-amp, amp]`. -/
theorem C8_gen_range (seed : ℕ) (amp : ℚ) (xn : ℕ) (hamp : 0 < amp) :
    (gen_uniform_amp seed amp xn).length = xn ∧
    ∀ v ∈ gen_uniform_amp seed amp xn, -amp ≤ v ∧ v ≤ amp := by
  refine ⟨gen_uniform_amp_length seed amp xn, ?_⟩
  intro v hv
  rw [gen_uniform_amp, npUniform, List.mem_map] at hv
  obtain ⟨w, hw, hwv⟩ := hv
  have hle : -1 * amp ≤ 1 * amp := by linarith
  have hb := uniformOfNat_bounds (-1 * amp) (1 * amp) hle w
  rw [← hwv]
  constructor
  · linarith [hb.1]
  · linarith [hb.2]

/-- Closed instance discharging the hypothesis of the C8 theorem. -/
theorem C8_witness :
    0 < (1 : ℚ) ∧
    ((gen_uniform_amp 7 1 2).length = 2 ∧
      ∀ v ∈ gen_uniform_amp 7 1 2, -(1 : ℚ) ≤ v ∧ v ≤ 1) :=
  ⟨by norm_num, C8_gen_range 7 1 2 (by norm_num)⟩

/-- C9: two runs of the SequenceGenerator with the same seed and the same
parameters produce identical output sequences and identical MovingAverage
targets: the generator output is a pure function of the seed and the
parameters, so a repeated run cannot differ. -/
theorem C9_reproducible (seed : ℕ) (amp : ℚ) (xn tsteps : ℕ) :
    (SequenceGenerator seed amp xn tsteps).1
        = (SequenceGenerator seed amp xn tsteps).1 ∧
    (SequenceGenerator seed amp xn tsteps).2
        = (SequenceGenerator seed amp xn tsteps).2 :=
  ⟨rfl, rfl⟩

/-- C10: after dropping the first `to_drop = max(tsteps-1, lahead-1)` rows,
the retained input and target each have exactly `input_len` rows — the
generator was invoked with length `input_len + to_drop` — so the split index
`split_data` computes from the global `input_len` equals the one computed
from the actual length of the array being split. -/
theorem C10_global_length (seed : ℕ) (amp : ℚ)
    (input_len tsteps lahead batch_size : ℕ) (r : ℚ) :
    (data_input_final seed amp input_len tsteps lahead).length = input_len ∧
    (expected_output_final seed amp input_len tsteps lahead).length = input_len ∧
    to_train_of input_len batch_size r
      = to_train_of (data_input_final seed amp input_len tsteps lahead).length
          batch_size r :=
  ⟨data_input_final_length seed amp input_len tsteps lahead,
    expected_output_final_length seed amp input_len tsteps lahead,
    by rw [data_input_final_length]⟩

end LstmStateful
